import Mathlib

/-!
Verification development for the question-mining core: a shallow embedding of
the vector index (`vector_db/faiss_index.py`), the metadata store
(`vector_db/metadata_store.py`), the embedding contract
(`embeddings/embedder.py`), threshold retrieval (`retrieval/search.py`) and the
semantic deduplication / clustering routines
(`processing/semantic_chunker.py`).

Modelling conventions:
* Python floats are modelled as rationals (`ℚ`).  Division by zero is total in
  `ℚ` (it yields `0`) whereas NumPy yields non-finite values; the theorems
  below never rely on the value of a division by zero, only on whether an
  error is raised around it.
* Python `dict`s are modelled as association lists with CPython update
  semantics: assigning to an existing key replaces the value in place,
  assigning a fresh key appends it at the end.
* Raised exceptions are modelled with `Except String`.
* External collaborators (the sentence-transformer model, NumPy's norm, the
  scikit-learn clusterer, the wall clock) enter as explicit parameters or as
  documented rational models; everything the claims quantify over is the
  repository's own control flow.
-/

namespace CQM

/-! ### Association lists with Python-dict semantics -/

/-- Lookup in an association list (Python `d[k]` / `k in d`). -/
def alookup {κ β : Type} [DecidableEq κ] : List (κ × β) → κ → Option β
  | [], _ => none
  | (k', v) :: t, k => if k' = k then some v else alookup t k

/-- Assignment `d[k] = v` with CPython semantics: an existing key keeps its
position and gets the new value, a fresh key is appended at the end. -/
def aset {κ β : Type} [DecidableEq κ] : List (κ × β) → κ → β → List (κ × β)
  | [], k, v => [(k, v)]
  | (k', v') :: t, k, v =>
      if k' = k then (k, v) :: t else (k', v') :: aset t k v

/-- Python `d.get(k, dflt)`. -/
def agetD {κ β : Type} [DecidableEq κ] (l : List (κ × β)) (k : κ) (dflt : β) : β :=
  (alookup l k).getD dflt

/-- Rebuild a dict from a list of pairs (a Python dict comprehension):
later occurrences of a key overwrite earlier ones. -/
def fromPairs {κ β : Type} [DecidableEq κ] (l : List (κ × β)) : List (κ × β) :=
  l.foldl (fun m p => aset m p.1 p.2) []

/-! ### Numeric model -/

/-- Embedding vectors (NumPy 1-D float arrays). -/
abbrev Vec := List ℚ

/-- `np.dot` on 1-D arrays. -/
def dot (a b : Vec) : ℚ := (List.zipWith (· * ·) a b).sum

/-- Sum of squares of the entries. -/
def sumSq (v : Vec) : ℚ := (v.map fun x => x * x).sum

/-- Model of `np.linalg.norm` (Euclidean norm) over rationals: a rational
floor-approximation of `√(Σ xᵢ²)`.  The development relies only on its zero
set: it is `0` exactly when every entry of the vector is `0`, and on vectors
whose true norm is rational (such as unit vectors) it is exact. -/
def ratNorm (v : Vec) : ℚ :=
  (Nat.sqrt ((sumSq v).num.toNat * (sumSq v).den) : ℚ) / ((sumSq v).den : ℚ)

/-- `v / np.linalg.norm(v)` , entrywise division of a vector by its norm
(`faiss_index.py` line 145 normalizes each row this way, and `search`
normalizes the query the same way at line 191). -/
def normalizeRow (v : Vec) : Vec := v.map (· / ratNorm v)

/-- Python blank test `not t or not t.strip()`: the string is empty or all
whitespace (`embedder.py` lines 51 and 70). -/
def blank (s : String) : Bool := s.toList.all Char.isWhitespace

/-! ### Embedding provider (`embeddings/embedder.py`)

The sentence-transformer model itself is external; it enters as a
deterministic parameter `embed : String → Vec`.  What is embedded here is the
repository's own wrapper logic. -/

/-- `QuestionEmbedder.embed_single` (lines 40-54): raises `ValueError` on
blank/empty text, otherwise encodes the text. -/
def embed_single (embed : String → Vec) (text : String) : Except String Vec :=
  if blank text then .error "Cannot embed empty text"
  else .ok (embed text)

/-- `QuestionEmbedder.embed_batch` (lines 56-80): raises `ValueError` only when
the input list itself is empty; otherwise it silently filters out blank texts
(logging a warning) and encodes only the remaining ones. -/
def embed_batch (embed : String → Vec) (texts : List String) :
    Except String (List Vec) :=
  if texts = [] then .error "Cannot embed empty list"
  else .ok ((texts.filter fun t => !blank t).map embed)

/-! ### Vector index (`vector_db/faiss_index.py`) -/

/-- In-memory state of `FAISSIndexManager`: `indexes` maps a celebrity name to
the stored vectors of its `IndexFlatIP` (ids are the positions), and
`index_sizes` is the separately tracked size dict.  The FAISS-internal
dimension bookkeeping is not modelled; no claim concerns dimension
mismatches. -/
structure FaissMem where
  indexes : List (String × List Vec)
  index_sizes : List (String × Nat)
deriving DecidableEq

/-- The durable index file for one namespace: either unreadable, or the stored
vectors together with the optional side-car size record. -/
inductive DiskIdx where
  | corrupt
  | good (vecs : List Vec) (sizeRec : Option Nat)
deriving DecidableEq

/-- `_get_index_path` / `_get_metadata_path` key files by
`name.lower().replace(" ", "_")`. -/
def safeName (s : String) : String :=
  String.mk (s.toList.map fun c => if c = ' ' then '_' else c.toLower)

/-- `FAISSIndexManager.create_index` (lines 39-56). -/
def create_index (fs : FaissMem) (name : String) : FaissMem :=
  { indexes := aset fs.indexes name [],
    index_sizes := aset fs.index_sizes name 0 }

/-- `FAISSIndexManager.load_index` (lines 58-92): `False` when the file is
absent or unreadable, otherwise installs the vectors and the size (side-car
record if present, else the vector count). -/
def load_index (fs : FaissMem) (didx : List (String × DiskIdx)) (name : String) :
    FaissMem × Bool :=
  match alookup didx (safeName name) with
  | none => (fs, false)
  | some .corrupt => (fs, false)
  | some (.good vecs sizeRec) =>
      ({ indexes := aset fs.indexes name vecs,
         index_sizes := aset fs.index_sizes name (sizeRec.getD vecs.length) },
       true)

/-- `FAISSIndexManager.save_index` (lines 94-120): a missing namespace is only
logged (no mutation, no raise); otherwise both files are (re)written. -/
def save_index (fs : FaissMem) (didx : List (String × DiskIdx)) (name : String) :
    Except String (List (String × DiskIdx)) :=
  match alookup fs.indexes name with
  | none => .ok didx
  | some vecs =>
      match alookup fs.index_sizes name with
      | none => .error "KeyError"
      | some sz => .ok (aset didx (safeName name) (.good vecs (some sz)))

/-- `FAISSIndexManager.add_vectors` (lines 122-162): raises when the namespace
is not loaded; otherwise L2-normalizes each row when `normalize` is set (with
no zero-norm check of any kind), appends the rows, bumps the size counter and
returns the contiguous id range `start, …, start+n-1`. -/
def add_vectors (fs : FaissMem) (name : String) (vectors : List Vec)
    (normalize : Bool := true) : Except String (FaissMem × List Nat) :=
  match alookup fs.indexes name with
  | none => .error ("Index not found for " ++ name)
  | some stored =>
      let vecs' := if normalize then vectors.map normalizeRow else vectors
      let start := agetD fs.index_sizes name 0
      let n := vecs'.length
      .ok ({ indexes := aset fs.indexes name (stored ++ vecs'),
             index_sizes := aset fs.index_sizes name (start + n) },
           List.range' start n)

/-- Candidate ordering of `IndexFlatIP.search` results: descending score,
ties broken by ascending id. -/
def candLe (a b : ℚ × Nat) : Prop := b.1 < a.1 ∨ (a.1 = b.1 ∧ a.2 ≤ b.2)

instance : DecidableRel candLe := fun a b => by unfold candLe; infer_instance

instance : IsTotal (ℚ × Nat) candLe :=
  ⟨fun a b => by
    unfold candLe
    rcases lt_trichotomy a.1 b.1 with h | h | h
    · exact .inr (.inl h)
    · rcases Nat.le_total a.2 b.2 with h2 | h2
      · exact .inl (.inr ⟨h, h2⟩)
      · exact .inr (.inr ⟨h.symm, h2⟩)
    · exact .inl (.inl h)⟩

instance : IsTrans (ℚ × Nat) candLe :=
  ⟨fun a b c hab hbc => by
    unfold candLe at *
    rcases hab with h1 | ⟨e1, l1⟩
    · rcases hbc with h2 | ⟨e2, _⟩
      · exact .inl (h2.trans h1)
      · exact .inl (e2 ▸ h1)
    · rcases hbc with h2 | ⟨e2, l2⟩
      · exact .inl (e1 ▸ h2)
      · exact .inr ⟨e1.trans e2, l1.trans l2⟩⟩

/-- Model of `faiss.IndexFlatIP.search` over the stored rows: score every
stored vector by inner product with the query, rank by descending score (ids
ascending on ties) and keep the best `k`.  FAISS's padding of impossible
result slots with id `-1` is not modelled: `retrieve` always clamps `k` to the
recorded index size, and the theorems assume the size record matches the
stored row count. -/
def flatIPSearch (stored : List Vec) (q : Vec) (k : Nat) : List (ℚ × Nat) :=
  (List.insertionSort candLe
    ((List.range stored.length).map fun i => (dot (stored.getD i []) q, i))).take k

/-- `FAISSIndexManager.search` (lines 164-199): raises when the namespace is
not loaded; otherwise normalizes the query (when `normalize`) and returns the
zipped `(distances, indices)` rows of the FAISS search. -/
def faiss_search (fs : FaissMem) (name : String) (query : Vec) (k : Nat)
    (normalize : Bool := true) : Except String (List (ℚ × Nat)) :=
  match alookup fs.indexes name with
  | none => .error ("Index not found for " ++ name)
  | some stored =>
      let q' := if normalize then normalizeRow query else query
      .ok (flatIPSearch stored q' k)

/-- `FAISSIndexManager.get_index_size` (lines 201-203): `self.index_sizes.get(name, 0)`. -/
def get_index_size (fs : FaissMem) (name : String) : Nat :=
  agetD fs.index_sizes name 0

/-! ### Metadata store (`vector_db/metadata_store.py`) -/

/-- One stored metadata record (`add_metadata` lines 120-130).  Source fields
come from `source.get(...)` and may be absent; `indexed_at` is the wall-clock
stamp taken at insertion. -/
structure Metadata where
  celebrity_name : String
  question_text : String
  source_type : Option String
  source_url : Option String
  source_title : Option String
  timestamp : Option String
  date : Option String
  indexed_at : String
deriving DecidableEq

/-- An ingestion-side source record (the dict handed to `add_metadata`). -/
structure SourceRec where
  source_type : Option String
  source_url : Option String
  source_title : Option String
  timestamp : Option String
  date : Option String
deriving DecidableEq

/-- In-memory state of `MetadataStore`: per-namespace dict from FAISS id to
record. -/
structure MetaMem where
  store : List (String × List (Nat × Metadata))
deriving DecidableEq

/-- The durable metadata JSON file of one namespace: unreadable, or a list of
id/record pairs. -/
inductive DiskMeta where
  | corrupt
  | good (records : List (Nat × Metadata))
deriving DecidableEq

/-- `MetadataStore.load_metadata` (lines 32-63): whether the file is absent or
fails to parse, the in-memory entry for the namespace is reset to the empty
dict and `False` is returned; on success the parsed records are installed. -/
def load_metadata (ms : MetaMem) (dmeta : List (String × DiskMeta))
    (name : String) : MetaMem × Bool :=
  match alookup dmeta (safeName name) with
  | none => (⟨aset ms.store name []⟩, false)
  | some .corrupt => (⟨aset ms.store name []⟩, false)
  | some (.good recs) => (⟨aset ms.store name (fromPairs recs)⟩, true)

/-- `MetadataStore.save_metadata` (lines 65-91): a missing namespace is only
logged; otherwise the full dict is written out. -/
def save_metadata (ms : MetaMem) (dmeta : List (String × DiskMeta))
    (name : String) : List (String × DiskMeta) :=
  match alookup ms.store name with
  | none => dmeta
  | some recs => aset dmeta (safeName name) (.good recs)

/-- Build the record stored for one question (`add_metadata` lines 120-130);
`now` is the `datetime.utcnow().isoformat()` stamp. -/
def mkMetadata (name : String) (question : String) (src : SourceRec)
    (now : String) : Metadata :=
  { celebrity_name := name
    question_text := question
    source_type := src.source_type
    source_url := src.source_url
    source_title := src.source_title
    timestamp := src.timestamp
    date := src.date
    indexed_at := now }

/-- `MetadataStore.add_metadata` (lines 93-134): ensures the namespace dict
exists, validates that the three sequences have equal length (raising
`ValueError` otherwise) and inserts one record per id.  The on-error in-memory
creation of the empty namespace dict is not modelled: no claim depends on the
state after a raised length mismatch. -/
def add_metadata (ms : MetaMem) (name : String) (faiss_ids : List Nat)
    (questions : List String) (sources : List SourceRec) (now : String) :
    Except String MetaMem :=
  if faiss_ids.length ≠ questions.length ∨ faiss_ids.length ≠ sources.length then
    .error "Length mismatch: faiss_ids, questions, and sources must have same length"
  else
    let base := agetD ms.store name []
    let recs := (faiss_ids.zip (questions.zip sources)).foldl
      (fun m p => aset m p.1 (mkMetadata name p.2.1 p.2.2 now)) base
    .ok ⟨aset ms.store name recs⟩

/-- `MetadataStore.get_metadata` (lines 136-150): `None` when the namespace or
the id is unknown. -/
def get_metadata (ms : MetaMem) (name : String) (faiss_id : Nat) :
    Option Metadata :=
  match alookup ms.store name with
  | none => none
  | some recs => alookup recs faiss_id

/-- `MetadataStore.get_question_count` (lines 194-198). -/
def get_question_count (ms : MetaMem) (name : String) : Nat :=
  match alookup ms.store name with
  | none => 0
  | some recs => recs.length

/-! ### Retrieval engine (`retrieval/search.py`) -/

/-- A query result: a hydrated metadata record annotated with its similarity
score (the `metadata['similarity_score'] = float(similarity)` augmentation at
line 111). -/
structure SimMatch where
  md : Metadata
  similarity_score : ℚ
deriving DecidableEq

/-- Ordering used by `matches.sort(key=..., reverse=True)`: descending
similarity score. -/
def matchGe (a b : SimMatch) : Prop := b.similarity_score ≤ a.similarity_score

instance : DecidableRel matchGe := fun a b => by unfold matchGe; infer_instance

instance : IsTotal SimMatch matchGe :=
  ⟨fun a b => le_total b.similarity_score a.similarity_score⟩

instance : IsTrans SimMatch matchGe :=
  ⟨fun _ _ _ hab hbc => le_trans hbc hab⟩

/-- The threshold filter + hydration loop of `retrieve` (lines 103-112): keep
a candidate iff its score clears the threshold and its metadata is present,
annotating it with the score. -/
def hydrate (ms : MetaMem) (name : String) (threshold : ℚ)
    (cands : List (ℚ × Nat)) : List SimMatch :=
  cands.filterMap fun si =>
    if threshold ≤ si.1 then
      match get_metadata ms name si.2 with
      | some md => some ⟨md, si.1⟩
      | none => none
    else none

/-- `QuestionRetriever.retrieve` (lines 44-122).  The retriever's similarity
threshold and its embedder are parameters; `fs`/`ms` are the managers'
in-memory states and `didx`/`dmeta` the durable files.  Mirrors the source:
load index (else `[]`), load metadata (else `[]`), empty-index check, embed
the query, search `min(top_k, index_size)` candidates, filter by threshold,
hydrate, sort descending. -/
def retrieve (embed : String → Vec) (similarity_threshold : ℚ)
    (fs : FaissMem) (ms : MetaMem)
    (didx : List (String × DiskIdx)) (dmeta : List (String × DiskMeta))
    (celebrity_name user_question : String) (top_k : Nat := 20) :
    Except String (List SimMatch) :=
  let (fs1, ok1) := load_index fs didx celebrity_name
  if !ok1 then .ok []
  else
    let (ms1, ok2) := load_metadata ms dmeta celebrity_name
    if !ok2 then .ok []
    else
      let index_size := get_index_size fs1 celebrity_name
      if index_size = 0 then .ok []
      else
        match embed_single embed user_question with
        | .error e => .error e
        | .ok query_embedding =>
            let k := min top_k index_size
            match faiss_search fs1 celebrity_name query_embedding k true with
            | .error e => .error e
            | .ok cands =>
                .ok (List.insertionSort matchGe
                  (hydrate ms1 celebrity_name similarity_threshold cands))

/-! ### Semantic chunker (`processing/semantic_chunker.py`) -/

/-- The per-member source summary built when merging duplicates
(`deduplicate_questions` lines 97-103). -/
structure SourceInfo where
  source_url : Option String
  source_title : Option String
  timestamp : Option String
  date : Option String
deriving DecidableEq

/-- A question record as handled by the chunker: a mandatory `text` plus the
optional source fields read with `.get`, and the two annotation fields the
dedup pass may add. -/
structure Question where
  text : String
  source_url : Option String
  source_title : Option String
  timestamp : Option String
  date : Option String
  all_sources : Option (List SourceInfo)
  duplicate_count : Option Nat
deriving DecidableEq

instance : Inhabited Question :=
  ⟨{ text := "", source_url := none, source_title := none, timestamp := none,
     date := none, all_sources := none, duplicate_count := none }⟩

/-- The source summary extracted from one question (lines 97-103). -/
def sourceInfoOf (q : Question) : SourceInfo :=
  ⟨q.source_url, q.source_title, q.timestamp, q.date⟩

/-- Entry `(i, j)` of `np.dot(embeddings, embeddings.T)`. -/
def dedupSim (E : List Vec) (i j : Nat) : ℚ := dot (E.getD i []) (E.getD j [])

/-- The greedy grouping loop of `deduplicate_questions` (lines 69-84),
translated with the `used` set explicit: indices are visited in order, a
visited-but-unclaimed index `i` claims every later unclaimed `j` with
`sim i j ≥ θ`. -/
def groupsLoop (sim : Nat → Nat → ℚ) (θ : ℚ) :
    List Nat → List Nat → List (List Nat)
  | [], _ => []
  | i :: rest, used =>
      if i ∈ used then groupsLoop sim θ rest used
      else
        (i :: rest.filter fun j => j ∉ used ∧ θ ≤ sim i j) ::
          groupsLoop sim θ rest
            (used ++ (i :: rest.filter fun j => j ∉ used ∧ θ ≤ sim i j))

/-- The group list computed by `deduplicate_questions` for `n` items. -/
def dedupGroups (sim : Nat → Nat → ℚ) (θ : ℚ) (n : Nat) : List (List Nat) :=
  groupsLoop sim θ (List.range n) []

/-- The emission step of `deduplicate_questions` (lines 89-108): the first
member represents the group; when `keep_all_sources` is set and the group has
more than one member the copy is annotated with the merged source list and the
group size. -/
def emitGroup (qs : List Question) (keep_all_sources : Bool) (g : List Nat) :
    Question :=
  let rep := qs.getD (g.headD 0) default
  if keep_all_sources ∧ 1 < g.length then
    { rep with
      all_sources := some (g.map fun idx => sourceInfoOf (qs.getD idx default)),
      duplicate_count := some g.length }
  else rep

/-- `SemanticChunker.deduplicate_questions` (lines 35-111): empty and
singleton batches are returned as-is; otherwise the texts are batch-embedded,
the pairwise similarity matrix is formed and the greedy grouping runs.  When
`embed_batch` silently dropped a blank text the similarity matrix is smaller
than the question list and the Python loop dies with an out-of-range access on
its first inner pass; that is the `IndexError` branch. -/
def deduplicate_questions (embed : String → Vec) (similarity_threshold : ℚ)
    (questions : List Question) (keep_all_sources : Bool := true) :
    Except String (List Question) :=
  if questions = [] then .ok []
  else if questions.length = 1 then .ok questions
  else
    match embed_batch embed (questions.map (·.text)) with
    | .error e => .error e
    | .ok E =>
        if E.length < questions.length then .error "IndexError"
        else
          .ok ((dedupGroups (dedupSim E) similarity_threshold
            questions.length).map (emitGroup questions keep_all_sources))

/-- The `n_clusters` value `cluster_questions` hands to
`AgglomerativeClustering` (lines 139-147) for a batch of `n ≥ 2` items:
`max(2, int(np.sqrt(n)))` when unspecified, then capped at `n`.
`int(np.sqrt(n))` truncates, i.e. is the floor square root. -/
def clusterRequested (n : Nat) (n_clusters : Option Nat) : Nat :=
  min (n_clusters.getD (max 2 (Nat.sqrt n))) n

/-! ### Claim-side (spec-worded) definitions, for refinement comparisons -/

/-- Claim-side grouping, written from the words of the dedup claim: take the
first remaining item, group it with every later remaining item within the
merge threshold, drop the whole group from the remainder, recurse. -/
def specGroups (sim : Nat → Nat → ℚ) (θ : ℚ) : List Nat → List (List Nat)
  | [] => []
  | i :: rest =>
      (i :: rest.filter fun j => θ ≤ sim i j) ::
        specGroups sim θ (rest.filter fun j => ¬ θ ≤ sim i j)
termination_by l => l.length
decreasing_by
  simp only [List.length_cons]
  exact Nat.lt_succ_of_le (List.length_filter_le _ _)

/-- Claim-side representative emission, written from the words of the dedup
claim: the first-seen member stands for the group, annotated with the group
size and the merged source records exactly when the group has more than one
member. -/
def specEmit (qs : List Question) (g : List Nat) : Question :=
  let rep := qs.getD (g.headD 0) default
  if 1 < g.length then
    { rep with
      all_sources := some (g.map fun idx => sourceInfoOf (qs.getD idx default)),
      duplicate_count := some g.length }
  else rep

/-- Claim-side ceiling square root (the dedup/cluster claim says
`ceil(sqrt(n))`). -/
def specCeilSqrt (n : Nat) : Nat :=
  if Nat.sqrt n * Nat.sqrt n = n then Nat.sqrt n else Nat.sqrt n + 1

/-- Claim-side cluster-count formula: `max(2, ceil(sqrt(n)))`, capped at `n`. -/
def specClusterRequested (n : Nat) : Nat := min (max 2 (specCeilSqrt n)) n

/-- The per-namespace alignment invariant of the claims: the namespace is
present in both manager dicts, the tracked size equals the stored row count,
and the metadata ids are exactly `0, …, count-1` (each exactly once — the id
set of the vectors, which are implicitly numbered by position). -/
def alignedNS (fs : FaissMem) (ms : MetaMem) (name : String) : Prop :=
  ∃ vecs recs,
    alookup fs.indexes name = some vecs ∧
    alookup fs.index_sizes name = some vecs.length ∧
    alookup ms.store name = some recs ∧
    (recs.map Prod.fst).Perm (List.range vecs.length)

/-! ## Helper lemmas -/

theorem alookup_aset_self {κ β : Type} [DecidableEq κ] (l : List (κ × β))
    (k : κ) (v : β) : alookup (aset l k v) k = some v := by
  induction l with
  | nil => simp [aset, alookup]
  | cons p t ih =>
      by_cases h : p.1 = k
      · simp [aset, h, alookup]
      · simp [aset, h, alookup, ih]

theorem alookup_aset_ne {κ β : Type} [DecidableEq κ] (l : List (κ × β))
    {k k' : κ} (v : β) (h : k ≠ k') :
    alookup (aset l k v) k' = alookup l k' := by
  induction l with
  | nil => simp [aset, alookup, h]
  | cons p t ih =>
      by_cases hp : p.1 = k
      · simp [aset, hp, alookup, h]
      · simp [aset, hp, alookup, ih]

theorem map_fst_aset_of_mem {κ β : Type} [DecidableEq κ] (l : List (κ × β))
    {k : κ} (v : β) (h : k ∈ l.map Prod.fst) :
    (aset l k v).map Prod.fst = l.map Prod.fst := by
  induction l with
  | nil => simp at h
  | cons p t ih =>
      by_cases hp : p.1 = k
      · simp [aset, hp]
      · simp only [List.map_cons, List.mem_cons] at h
        rcases h with h | h
        · exact absurd h.symm hp
        · simp [aset, hp, ih h]

theorem map_fst_aset_of_not_mem {κ β : Type} [DecidableEq κ] (l : List (κ × β))
    {k : κ} (v : β) (h : k ∉ l.map Prod.fst) :
    (aset l k v).map Prod.fst = l.map Prod.fst ++ [k] := by
  induction l with
  | nil => simp [aset]
  | cons p t ih =>
      simp only [List.map_cons, List.mem_cons] at h
      push_neg at h
      have hp : p.1 ≠ k := fun hc => h.1 hc.symm
      simp [aset, hp, ih h.2]

/-! ## C9 — namespace-not-found behaviour of the Vector Index operations -/

/-- C9 counterexample.  The claim says every Vector Index operation, including
`get_size`, raises a namespace-not-found error when the namespace was never
created or loaded, "rather than returning a default value".  But
`get_index_size` is `self.index_sizes.get(name, 0)`: on a fresh manager with
no namespaces at all it simply returns the default `0`. -/
theorem C9_counterexample :
    get_index_size ⟨[], []⟩ "bob" = 0 := rfl

/-- C9, amended: `add_vectors` and `search` do raise (`ValueError`) when
invoked on a namespace that has not been created or loaded, but
`get_index_size` instead returns the default `0` for a namespace absent from
the size dict. -/
theorem C9_amended (fs : FaissMem) (name : String) (vs : List Vec) (q : Vec)
    (k : Nat) (nrm : Bool)
    (h : alookup fs.indexes name = none)
    (h2 : alookup fs.index_sizes name = none) :
    add_vectors fs name vs nrm = .error ("Index not found for " ++ name) ∧
    faiss_search fs name q k nrm = .error ("Index not found for " ++ name) ∧
    get_index_size fs name = 0 := by
  refine ⟨?_, ?_, ?_⟩
  · simp [add_vectors, h]
  · simp [faiss_search, h]
  · simp [get_index_size, agetD, h2]

/-- C9 witness: the amended statement applied to the fresh empty manager. -/
theorem C9_amended_witness :
    alookup (⟨[], []⟩ : FaissMem).indexes "bob" = none ∧
    alookup (⟨[], []⟩ : FaissMem).index_sizes "bob" = none ∧
    (add_vectors ⟨[], []⟩ "bob" [[1]] true = .error ("Index not found for " ++ "bob") ∧
     faiss_search ⟨[], []⟩ "bob" [1] 5 true = .error ("Index not found for " ++ "bob") ∧
     get_index_size ⟨[], []⟩ "bob" = 0) :=
  ⟨rfl, rfl, C9_amended ⟨[], []⟩ "bob" [[1]] [1] 5 true rfl rfl⟩

/-! ## C10 — failed metadata loads reset the namespace to the empty map -/

/-- C10: whenever `load_metadata` returns `False` (metadata file absent or
unparsable), the in-memory map for that namespace is afterwards the empty
dict — any entries previously held are discarded — so `get_metadata` returns
`None` for every id and `get_question_count` returns `0`, with nothing
raised. -/
theorem C10_load_metadata_failure_resets (ms : MetaMem)
    (dmeta : List (String × DiskMeta)) (name : String) (ms' : MetaMem)
    (h : load_metadata ms dmeta name = (ms', false)) :
    alookup ms'.store name = some [] ∧
    (∀ i : Nat, get_metadata ms' name i = none) ∧
    get_question_count ms' name = 0 := by
  have hms : ms' = ⟨aset ms.store name []⟩ := by
    unfold load_metadata at h
    rcases hd : alookup dmeta (safeName name) with _ | df
    · rw [hd] at h
      exact (Prod.mk.injEq .. ▸ h).1.symm
    · cases df with
      | corrupt =>
          rw [hd] at h
          exact (Prod.mk.injEq .. ▸ h).1.symm
      | good recs =>
          rw [hd] at h
          exact absurd (Prod.mk.injEq .. ▸ h).2 (by simp)
  subst hms
  refine ⟨alookup_aset_self .., fun i => ?_, ?_⟩
  · simp [get_metadata, alookup_aset_self, alookup]
  · simp [get_question_count, alookup_aset_self]

/-- C10 witness: a store that already holds a record for namespace `bob`
loses it when a load from a disk with no metadata file reports failure. -/
theorem C10_witness :
    load_metadata
        ⟨[("bob", [(0, mkMetadata "bob" "q" ⟨none, none, none, none, none⟩ "t")])]⟩
        [] "bob" =
      (⟨[("bob", [])]⟩, false) ∧
    (alookup (⟨[("bob", [])]⟩ : MetaMem).store "bob" = some [] ∧
     (∀ i : Nat, get_metadata ⟨[("bob", [])]⟩ "bob" i = none) ∧
     get_question_count ⟨[("bob", [])]⟩ "bob" = 0) :=
  ⟨rfl, C10_load_metadata_failure_resets
    ⟨[("bob", [(0, mkMetadata "bob" "q" ⟨none, none, none, none, none⟩ "t")])]⟩
    [] "bob" ⟨[("bob", [])]⟩ rfl⟩

/-! ## C4 — no zero-norm check in `add_vectors` -/

/-- C4 counterexample.  The claim says a zero-norm vector makes `add_vectors`
fail with `DegenerateVectorError`.  No such check (or error class) exists:
the rows are divided by their norms unconditionally and appended, and the
call returns the assigned ids.  Here the all-zero vector `[0, 0]` is accepted
into an empty namespace and id `0` is returned.  (In the rational model the
division by the zero norm is total and yields the zero row; under IEEE floats
the appended row is NaN — either way, no error is raised, which is what the
claim denies.) -/
theorem C4_counterexample :
    add_vectors ⟨[("a", [])], [("a", 0)]⟩ "a" [[0, 0]] true =
      .ok (⟨[("a", [[0, 0]])], [("a", 1)]⟩, [0]) := by
  norm_num [add_vectors, alookup, aset, agetD, normalizeRow, List.range']

/-- C4, amended: with `normalize` enabled `add_vectors` divides every vector
entrywise by its computed Euclidean norm and appends the results
unconditionally — there is no zero-norm check and no `DegenerateVectorError`
anywhere; whenever the namespace is loaded the call succeeds and returns the
contiguous id range, even when some vector has zero norm (in which case the
real system appends a non-finite row). -/
theorem C4_amended (fs : FaissMem) (name : String) (vectors : List Vec)
    (stored : List Vec) (h : alookup fs.indexes name = some stored) :
    add_vectors fs name vectors true =
      .ok ({ indexes := aset fs.indexes name (stored ++ vectors.map normalizeRow),
             index_sizes := aset fs.index_sizes name
               (agetD fs.index_sizes name 0 + vectors.length) },
           List.range' (agetD fs.index_sizes name 0) vectors.length) := by
  simp [add_vectors, h]

/-- C4 witness: the amended statement, applied to a namespace holding no
vectors and a batch consisting of one zero-norm vector. -/
theorem C4_amended_witness :
    alookup (⟨[("c", [])], [("c", 0)]⟩ : FaissMem).indexes "c" = some [] ∧
    add_vectors ⟨[("c", [])], [("c", 0)]⟩ "c" [[0]] true =
      .ok (⟨[("c", [[0]])], [("c", 1)]⟩, [0]) :=
  ⟨rfl, by
    simpa [normalizeRow, agetD, alookup, aset, List.range'] using
      C4_amended ⟨[("c", [])], [("c", 0)]⟩ "c" [[0]] [] rfl⟩

/-! ## C7 — blank-text behaviour of the embedding wrappers -/

/-- C7 counterexample.  The claim says `embed_batch` returns exactly one row
per input text and fails on blank text rather than silently skipping it.  In
fact `embed_batch` silently filters blank texts: on the two-element batch
`["hi", " "]` it succeeds and returns a single row. -/
theorem C7_counterexample :
    embed_batch (fun _ => ([] : Vec)) ["hi", " "] = .ok [[]] ∧
    (["hi", " "] : List String).length = 2 ∧ ([[]] : List (List ℚ)).length = 1 := by
  refine ⟨?_, rfl, rfl⟩
  rfl

/-- C7, amended: `embed_batch` raises only on an empty input list; otherwise
it returns one embedding per NON-blank input text, in order (so exactly `n`
rows when all `n` texts are non-blank), silently dropping blank texts.
`embed_single` does fail on blank or empty text (with `ValueError`, the only
error class in the code). -/
theorem C7_amended (embed : String → Vec) (texts : List String) (t : String)
    (hne : texts ≠ []) (hall : ∀ s ∈ texts, blank s = false)
    (hb : blank t = true) :
    embed_batch embed texts = .ok (texts.map embed) ∧
    embed_single embed t = .error "Cannot embed empty text" ∧
    ∃ rows, embed_batch embed (texts ++ [t]) = .ok rows ∧
      rows.length = texts.length := by
  have hfil : (texts.filter fun s => !blank s) = texts :=
    List.filter_eq_self.2 fun s hs => by simp [hall s hs]
  refine ⟨by simp [embed_batch, hne, hfil], by simp [embed_single, hb], ?_⟩
  refine ⟨texts.map embed, ?_, by simp⟩
  simp [embed_batch, List.filter_append, hfil, hb]

/-- C7 witness: the amended statement applied to the batch `["hi"]` and the
blank text `" "`. -/
theorem C7_amended_witness :
    (["hi"] : List String) ≠ [] ∧
    (∀ s ∈ (["hi"] : List String), blank s = false) ∧
    blank " " = true ∧
    (embed_batch (fun _ => ([] : Vec)) ["hi"] =
        .ok (["hi"].map fun _ => ([] : Vec)) ∧
     embed_single (fun _ => ([] : Vec)) " " = .error "Cannot embed empty text" ∧
     ∃ rows, embed_batch (fun _ => ([] : Vec)) (["hi"] ++ [" "]) = .ok rows ∧
       rows.length = (["hi"] : List String).length) :=
  ⟨by decide, by decide, by decide,
   C7_amended (fun _ => ([] : Vec)) ["hi"] " " (by decide) (by decide) (by decide)⟩

/-! ## C8 — default cluster count uses the floor, not the ceiling, square root -/

theorem sqrt_five : Nat.sqrt 5 = 2 := by
  have h1 : 2 ≤ Nat.sqrt 5 := Nat.le_sqrt.2 (by norm_num)
  have h2 : Nat.sqrt 5 < 3 := Nat.sqrt_lt.2 (by norm_num)
  omega

/-- C8 counterexample.  The claim says the cluster count requested for `n`
items with `n_clusters` unspecified is `max(2, ceil(sqrt(n)))` capped at `n`.
The code computes `int(np.sqrt(n))`, which truncates, i.e. takes the FLOOR.
At `n = 5` the code requests `max(2, 2) = 2` clusters while the claim demands
`max(2, 3) = 3`. -/
theorem C8_counterexample :
    clusterRequested 5 none = 2 ∧ specClusterRequested 5 = 3 ∧
    clusterRequested 5 none ≠ specClusterRequested 5 := by
  refine ⟨?_, ?_, ?_⟩ <;>
    simp [clusterRequested, specClusterRequested, specCeilSqrt, sqrt_five]

/-- C8, amended: for a batch of `n ≥ 2` items clustered with `n_clusters`
unspecified, the cluster count requested from the hierarchical clustering is
`max(2, s)` capped at `n`, where `s` is the FLOOR square root of `n`
(characterized by `s² ≤ n < (s+1)²`). -/
theorem C8_amended (n : Nat) (_h : 2 ≤ n) :
    ∃ s, s * s ≤ n ∧ n < (s + 1) * (s + 1) ∧
      clusterRequested n none = min (max 2 s) n := by
  refine ⟨Nat.sqrt n, ?_, ?_, rfl⟩
  · have := Nat.sqrt_le' n
    rwa [pow_two] at this
  · have := Nat.lt_succ_sqrt' n
    rwa [pow_two, Nat.succ_eq_add_one] at this

/-- C8 witness: the amended statement at `n = 7`. -/
theorem C8_amended_witness :
    2 ≤ 7 ∧ ∃ s, s * s ≤ 7 ∧ 7 < (s + 1) * (s + 1) ∧
      clusterRequested 7 none = min (max 2 s) 7 :=
  ⟨by decide, C8_amended 7 (by decide)⟩

/-! ## C2 — id alignment after an append-and-persist cycle -/

/-- Keys produced by the insertion fold of `add_metadata`: inserting a list of
pairs whose keys are fresh (and mutually distinct) appends exactly those keys,
in order. -/
theorem foldl_aset_map_fst {κ β γ : Type} [DecidableEq κ]
    (val : κ × γ → β) :
    ∀ (ps : List (κ × γ)) (m : List (κ × β)),
      (∀ k ∈ ps.map Prod.fst, k ∉ m.map Prod.fst) →
      (ps.map Prod.fst).Nodup →
      ((ps.foldl (fun m p => aset m p.1 (val p)) m).map Prod.fst) =
        m.map Prod.fst ++ ps.map Prod.fst
  | [], m, _, _ => by simp
  | p :: ps, m, hfresh, hnd => by
      simp only [List.foldl_cons, List.map_cons]
      have hp : p.1 ∉ m.map Prod.fst := hfresh p.1 (by simp)
      have hstep := map_fst_aset_of_not_mem m (val p) hp
      have hnd' : (ps.map Prod.fst).Nodup := (List.nodup_cons.1 (by simpa using hnd)).2
      have hfresh' : ∀ k ∈ ps.map Prod.fst, k ∉ (aset m p.1 (val p)).map Prod.fst := by
        intro k hk
        rw [hstep]
        simp only [List.mem_append, List.mem_singleton]
        rintro (hin | hkp)
        · exact hfresh k (by simp [hk]) hin
        · exact (List.nodup_cons.1 (by simpa using hnd)).1 (hkp ▸ hk)
      rw [foldl_aset_map_fst val ps _ hfresh' hnd', hstep]
      simp

/-- C2: for every namespace satisfying the alignment invariant, a successful
append-and-persist cycle — `add_vectors` returning ids, `add_metadata` with
those ids and equal-length texts and sources, then both saves — preserves it:
afterwards the number of stored vectors equals the number of metadata records
and their id sets are identical (the metadata ids are a permutation of
`0, …, count-1`, the implicit id set of the vectors). -/
theorem C2_id_alignment (fs : FaissMem) (ms : MetaMem)
    (didx : List (String × DiskIdx)) (dmeta : List (String × DiskMeta))
    (name now : String) (vectors : List Vec) (texts : List String)
    (sources : List SourceRec)
    (halign : alignedNS fs ms name)
    (hq : texts.length = vectors.length)
    (hs : sources.length = vectors.length) :
    ∃ fs' ids ms' didx',
      add_vectors fs name vectors true = .ok (fs', ids) ∧
      add_metadata ms name ids texts sources now = .ok ms' ∧
      save_index fs' didx name = .ok didx' ∧
      ∃ vecs' recs',
        alookup fs'.indexes name = some vecs' ∧
        alookup ms'.store name = some recs' ∧
        save_metadata ms' dmeta name =
          aset dmeta (safeName name) (.good recs') ∧
        recs'.length = vecs'.length ∧
        (recs'.map Prod.fst).Perm (List.range vecs'.length) := by
  obtain ⟨vecs, recs, hiv, his, hmr, hperm⟩ := halign
  have hids : (List.range' vecs.length vectors.length).length = vectors.length :=
    List.length_range' ..
  have hcond : ¬ ((List.range' vecs.length vectors.length).length ≠ texts.length ∨
      (List.range' vecs.length vectors.length).length ≠ sources.length) := by
    push_neg
    exact ⟨by rw [hids, hq], by rw [hids, hs]⟩
  have hzip : (((List.range' vecs.length vectors.length).zip
      (texts.zip sources)).map Prod.fst) = List.range' vecs.length vectors.length := by
    apply List.map_fst_zip
    rw [hids, List.length_zip, hq, hs]
    simp
  have hfresh : ∀ k ∈ List.range' vecs.length vectors.length,
      k ∉ recs.map Prod.fst := by
    intro k hk hmem
    have h1 : k ∈ List.range vecs.length := hperm.mem_iff.1 hmem
    have h2 := List.mem_range.1 h1
    have h3 := (List.mem_range'_1.1 hk).1
    omega
  have hnd : (List.range' vecs.length vectors.length).Nodup := List.nodup_range' ..
  have hkeys := foldl_aset_map_fst
    (fun p : Nat × (String × SourceRec) => mkMetadata name p.2.1 p.2.2 now)
    ((List.range' vecs.length vectors.length).zip (texts.zip sources)) recs
    (by rw [hzip]; exact hfresh) (by rw [hzip]; exact hnd)
  rw [hzip] at hkeys
  refine ⟨{ indexes := aset fs.indexes name (vecs ++ vectors.map normalizeRow),
            index_sizes := aset fs.index_sizes name
              (vecs.length + vectors.length) },
          List.range' vecs.length vectors.length,
          ⟨aset ms.store name
            (((List.range' vecs.length vectors.length).zip
              (texts.zip sources)).foldl
                (fun m p => aset m p.1 (mkMetadata name p.2.1 p.2.2 now)) recs)⟩,
          aset didx (safeName name)
            (.good (vecs ++ vectors.map normalizeRow)
              (some (vecs.length + vectors.length))),
          ?_, ?_, ?_, ?_⟩
  · simp [add_vectors, hiv, agetD, his]
  · simp only [add_metadata, if_neg hcond, agetD, hmr, Option.getD_some]
  · simp only [save_index, alookup_aset_self]
  · refine ⟨vecs ++ vectors.map normalizeRow, _,
      alookup_aset_self .., alookup_aset_self .., ?_, ?_, ?_⟩
    · simp only [save_metadata, alookup_aset_self]
    · have h1 := congrArg List.length hkeys
      simp only [List.length_map, List.length_append] at h1 ⊢
      rw [h1, hids]
      have h2 := hperm.length_eq
      simp only [List.length_map, List.length_range] at h2
      omega
    · rw [hkeys]
      have hlen' : (vecs ++ vectors.map normalizeRow).length =
          vecs.length + vectors.length := by simp
      rw [hlen', List.range_add]
      have h2 : List.range' vecs.length vectors.length =
          (List.range vectors.length).map (vecs.length + ·) :=
        List.range'_eq_map_range ..
      rw [h2]
      exact hperm.append_right _

/-- C2 witness: one append-and-persist cycle of a single vector and its
metadata record into an empty (but created) namespace. -/
theorem C2_witness :
    alignedNS ⟨[("a", [])], [("a", 0)]⟩ ⟨[("a", [])]⟩ "a" ∧
    (∃ fs' ids ms' didx',
      add_vectors ⟨[("a", [])], [("a", 0)]⟩ "a" [[1]] true = .ok (fs', ids) ∧
      add_metadata ⟨[("a", [])]⟩ "a" ids ["q"]
        [⟨none, none, none, none, none⟩] "t" = .ok ms' ∧
      save_index fs' [] "a" = .ok didx' ∧
      ∃ vecs' recs',
        alookup fs'.indexes "a" = some vecs' ∧
        alookup ms'.store "a" = some recs' ∧
        save_metadata ms' [] "a" = aset [] (safeName "a") (.good recs') ∧
        recs'.length = vecs'.length ∧
        (recs'.map Prod.fst).Perm (List.range vecs'.length)) :=
  ⟨⟨[], [], rfl, rfl, rfl, List.Perm.refl _⟩,
   C2_id_alignment ⟨[("a", [])], [("a", 0)]⟩ ⟨[("a", [])]⟩ [] [] "a" "t"
     [[1]] ["q"] [⟨none, none, none, none, none⟩]
     ⟨[], [], rfl, rfl, rfl, List.Perm.refl _⟩ rfl rfl⟩

/-! ## C5 — threshold monotonicity of `retrieve` -/

/-- Raising the similarity threshold can only shrink the hydrated match set. -/
theorem hydrate_mono (ms : MetaMem) (name : String) {t1 t2 : ℚ} (h : t1 ≤ t2)
    (cands : List (ℚ × Nat)) :
    hydrate ms name t2 cands ⊆ hydrate ms name t1 cands := by
  intro x hx
  simp only [hydrate, List.mem_filterMap] at hx ⊢
  obtain ⟨p, hp, hval⟩ := hx
  refine ⟨p, hp, ?_⟩
  by_cases h2 : t2 ≤ p.1
  · rw [if_pos h2] at hval
    rw [if_pos (le_trans h h2)]
    exact hval
  · rw [if_neg h2] at hval
    exact absurd hval (by simp)

/-- C5: for a fixed namespace, query and candidate pool size, and thresholds
`t1 < t2` in `[0, 1]`, every match returned by `retrieve` under `t2` is also
returned under `t1` — the `t1` result set is a superset of the `t2` one. -/
theorem C5_threshold_monotonicity (embed : String → Vec) (t1 t2 : ℚ)
    (fs : FaissMem) (ms : MetaMem)
    (didx : List (String × DiskIdx)) (dmeta : List (String × DiskMeta))
    (name query : String) (top_k : Nat) (l1 l2 : List SimMatch)
    (_h0 : 0 ≤ t1) (h12 : t1 < t2) (_h1 : t2 ≤ 1)
    (e1 : retrieve embed t1 fs ms didx dmeta name query top_k = .ok l1)
    (e2 : retrieve embed t2 fs ms didx dmeta name query top_k = .ok l2) :
    l2 ⊆ l1 := by
  unfold retrieve at e1 e2
  rcases hli : load_index fs didx name with ⟨fs1, ok1⟩
  rw [hli] at e1 e2
  cases ok1 with
  | false =>
      simp only [Bool.not_false, if_pos] at e1 e2
      cases e1; cases e2
      exact fun x hx => hx
  | true =>
      simp only [Bool.not_true, Bool.false_eq_true, if_false] at e1 e2
      rcases hlm : load_metadata ms dmeta name with ⟨ms1, ok2⟩
      rw [hlm] at e1 e2
      cases ok2 with
      | false =>
          simp only [Bool.not_false, if_pos] at e1 e2
          cases e1; cases e2
          exact fun x hx => hx
      | true =>
          simp only [Bool.not_true, Bool.false_eq_true, if_false] at e1 e2
          by_cases hz : get_index_size fs1 name = 0
          · rw [if_pos hz] at e1 e2
            cases e1; cases e2
            exact fun x hx => hx
          · rw [if_neg hz] at e1 e2
            rcases hes : embed_single embed query with e | qe
            · rw [hes] at e1
              cases e1
            · rw [hes] at e1 e2
              dsimp only at e1 e2
              rcases hfs : faiss_search fs1 name qe
                  (min top_k (get_index_size fs1 name)) true with e | cands
              · rw [hfs] at e1
                cases e1
              · rw [hfs] at e1 e2
                cases e1; cases e2
                intro x hx
                rw [List.mem_insertionSort] at hx ⊢
                exact hydrate_mono ms1 name (le_of_lt h12) cands hx

/-- C5 witness: a one-vector namespace queried at thresholds `0 < 1`; both
runs return the single match and the superset inclusion is the theorem's
conclusion. -/
theorem C5_witness :
    retrieve (fun _ => [(1 : ℚ)]) 0 ⟨[], []⟩ ⟨[]⟩
      [("a", .good [[1]] (some 1))]
      [("a", .good [(0, mkMetadata "a" "q0" ⟨none, none, none, none, none⟩ "t")])]
      "a" "q" 20 =
      .ok [⟨mkMetadata "a" "q0" ⟨none, none, none, none, none⟩ "t", 1⟩] ∧
    retrieve (fun _ => [(1 : ℚ)]) 1 ⟨[], []⟩ ⟨[]⟩
      [("a", .good [[1]] (some 1))]
      [("a", .good [(0, mkMetadata "a" "q0" ⟨none, none, none, none, none⟩ "t")])]
      "a" "q" 20 =
      .ok [⟨mkMetadata "a" "q0" ⟨none, none, none, none, none⟩ "t", 1⟩] ∧
    ([⟨mkMetadata "a" "q0" ⟨none, none, none, none, none⟩ "t", 1⟩] : List SimMatch) ⊆
      [⟨mkMetadata "a" "q0" ⟨none, none, none, none, none⟩ "t", 1⟩] := by
  have hsafe : safeName "a" = "a" := by decide
  have hblank : blank "q" = false := by decide
  have e1 : retrieve (fun _ => [(1 : ℚ)]) 0 ⟨[], []⟩ ⟨[]⟩
      [("a", .good [[1]] (some 1))]
      [("a", .good [(0, mkMetadata "a" "q0" ⟨none, none, none, none, none⟩ "t")])]
      "a" "q" 20 =
      .ok [⟨mkMetadata "a" "q0" ⟨none, none, none, none, none⟩ "t", 1⟩] := by
    norm_num [retrieve, load_index, load_metadata, hsafe, alookup, aset, agetD,
      get_index_size, embed_single, hblank, faiss_search, flatIPSearch,
      normalizeRow, ratNorm, sumSq, dot, fromPairs, get_metadata, hydrate,
      List.range', Nat.sqrt_one, matchGe]
  have e2 : retrieve (fun _ => [(1 : ℚ)]) 1 ⟨[], []⟩ ⟨[]⟩
      [("a", .good [[1]] (some 1))]
      [("a", .good [(0, mkMetadata "a" "q0" ⟨none, none, none, none, none⟩ "t")])]
      "a" "q" 20 =
      .ok [⟨mkMetadata "a" "q0" ⟨none, none, none, none, none⟩ "t", 1⟩] := by
    norm_num [retrieve, load_index, load_metadata, hsafe, alookup, aset, agetD,
      get_index_size, embed_single, hblank, faiss_search, flatIPSearch,
      normalizeRow, ratNorm, sumSq, dot, fromPairs, get_metadata, hydrate,
      List.range', Nat.sqrt_one, matchGe]
  exact ⟨e1, e2,
    C5_threshold_monotonicity (fun _ => [(1 : ℚ)]) 0 1 ⟨[], []⟩ ⟨[]⟩
      [("a", .good [[1]] (some 1))]
      [("a", .good [(0, mkMetadata "a" "q0" ⟨none, none, none, none, none⟩ "t")])]
      "a" "q" 20 _ _ (by norm_num) (by norm_num) (by norm_num) e1 e2⟩

/-! ## C1 — retrieve returns exactly the above-threshold hydrated candidates -/

/-- Membership in the threshold filter + hydration loop of `retrieve`. -/
theorem mem_hydrate (ms : MetaMem) (name : String) (θ : ℚ)
    (cands : List (ℚ × Nat)) (x : SimMatch) :
    x ∈ hydrate ms name θ cands ↔
      ∃ p ∈ cands, θ ≤ p.1 ∧ get_metadata ms name p.2 = some x.md ∧
        x.similarity_score = p.1 := by
  simp only [hydrate, List.mem_filterMap]
  constructor
  · rintro ⟨p, hp, hval⟩
    by_cases hθ : θ ≤ p.1
    · rw [if_pos hθ] at hval
      rcases hgm : get_metadata ms name p.2 with _ | md
      · rw [hgm] at hval
        cases hval
      · rw [hgm] at hval
        cases hval
        exact ⟨p, hp, hθ, hgm, rfl⟩
    · rw [if_neg hθ] at hval
      cases hval
  · rintro ⟨p, hp, hθ, hmd, hsc⟩
    refine ⟨p, hp, ?_⟩
    rw [if_pos hθ, hmd]
    cases x
    simp_all

/-- Number of candidates the modelled FAISS search returns. -/
theorem length_flatIPSearch (stored : List Vec) (q : Vec) (k : Nat) :
    (flatIPSearch stored q k).length = min k stored.length := by
  simp [flatIPSearch]

/-- C1: on a namespace whose index loads (with a size record matching the
stored row count) and is non-empty, and any embeddable (non-blank) query,
`retrieve` returns exactly those of the `min(top_k, index_size)` candidates
produced by the index search whose score clears the configured threshold and
whose metadata is present (absent metadata silently drops the candidate),
each annotated with its score, sorted by score descending; the returned count
is bounded by the candidate pool size but otherwise unconstrained — nothing
pads it to a fixed top-K. -/
theorem C1_retrieve_threshold_semantics (embed : String → Vec) (θ : ℚ)
    (fs : FaissMem) (ms : MetaMem)
    (didx : List (String × DiskIdx)) (dmeta : List (String × DiskMeta))
    (name query : String) (top_k : Nat)
    (vecs : List Vec) (recs : List (Nat × Metadata))
    (hidx : alookup didx (safeName name) = some (.good vecs (some vecs.length)))
    (hmeta : alookup dmeta (safeName name) = some (.good recs))
    (hne : vecs ≠ [])
    (hq : blank query = false) :
    ∃ M cands,
      retrieve embed θ fs ms didx dmeta name query top_k = .ok M ∧
      faiss_search (load_index fs didx name).1 name (embed query)
        (min top_k vecs.length) true = .ok cands ∧
      cands.length = min top_k vecs.length ∧
      (∀ x, x ∈ M ↔ ∃ p ∈ cands, θ ≤ p.1 ∧
        get_metadata (load_metadata ms dmeta name).1 name p.2 = some x.md ∧
        x.similarity_score = p.1) ∧
      List.Sorted matchGe M ∧
      M.length ≤ min top_k vecs.length := by
  have hnz : vecs.length ≠ 0 := by simpa using hne
  have hli : load_index fs didx name =
      ({ indexes := aset fs.indexes name vecs,
         index_sizes := aset fs.index_sizes name vecs.length }, true) := by
    simp [load_index, hidx]
  have hlm : load_metadata ms dmeta name =
      (⟨aset ms.store name (fromPairs recs)⟩, true) := by
    simp [load_metadata, hmeta]
  have hsize : get_index_size (load_index fs didx name).1 name = vecs.length := by
    rw [hli]
    simp [get_index_size, agetD, alookup_aset_self]
  have hfsrch : faiss_search (load_index fs didx name).1 name (embed query)
      (min top_k vecs.length) true =
      .ok (flatIPSearch vecs (normalizeRow (embed query))
        (min top_k vecs.length)) := by
    rw [hli]
    simp [faiss_search, alookup_aset_self]
  have hret : retrieve embed θ fs ms didx dmeta name query top_k =
      .ok (List.insertionSort matchGe
        (hydrate (load_metadata ms dmeta name).1 name θ
          (flatIPSearch vecs (normalizeRow (embed query))
            (min top_k vecs.length)))) := by
    unfold retrieve
    rw [hli]
    dsimp only
    rw [hlm]
    dsimp only
    have hsz1 : get_index_size
        ({ indexes := aset fs.indexes name vecs,
           index_sizes := aset fs.index_sizes name vecs.length } : FaissMem)
        name = vecs.length := by
      simp [get_index_size, agetD, alookup_aset_self]
    rw [hsz1, if_neg hnz]
    simp only [embed_single, hq, Bool.false_eq_true, if_false]
    have hfs1 : faiss_search
        ({ indexes := aset fs.indexes name vecs,
           index_sizes := aset fs.index_sizes name vecs.length } : FaissMem)
        name (embed query) (min top_k vecs.length) true =
        .ok (flatIPSearch vecs (normalizeRow (embed query))
          (min top_k vecs.length)) := by
      simp [faiss_search, alookup_aset_self]
    rw [hfs1]
    simp
  refine ⟨_, _, hret, hfsrch, ?_, ?_, ?_, ?_⟩
  · rw [length_flatIPSearch]
    exact Nat.min_eq_left (min_le_right _ _)
  · intro x
    rw [List.mem_insertionSort, mem_hydrate]
  · exact List.sorted_insertionSort matchGe _
  · rw [List.length_insertionSort]
    calc (hydrate (load_metadata ms dmeta name).1 name θ
          (flatIPSearch vecs (normalizeRow (embed query))
            (min top_k vecs.length))).length
        ≤ (flatIPSearch vecs (normalizeRow (embed query))
            (min top_k vecs.length)).length := List.length_filterMap_le _ _
      _ = min top_k vecs.length := by
          rw [length_flatIPSearch]
          exact Nat.min_eq_left (min_le_right _ _)

/-- C1 witness: the characterization applied to a one-vector namespace with a
matching metadata record, a unit embedder and threshold `1`. -/
theorem C1_witness :
    alookup [("b", DiskIdx.good [[1]] (some 1))] (safeName "b") =
      some (DiskIdx.good [[1]] (some 1)) ∧
    alookup [("b", DiskMeta.good
        [(0, mkMetadata "b" "q1" ⟨none, none, none, none, none⟩ "t")])]
      (safeName "b") =
      some (DiskMeta.good
        [(0, mkMetadata "b" "q1" ⟨none, none, none, none, none⟩ "t")]) ∧
    ([[1]] : List Vec) ≠ [] ∧
    blank "hello" = false ∧
    (∃ M cands,
      retrieve (fun _ => [(1 : ℚ)]) 1 ⟨[], []⟩ ⟨[]⟩
        [("b", DiskIdx.good [[1]] (some 1))]
        [("b", DiskMeta.good
          [(0, mkMetadata "b" "q1" ⟨none, none, none, none, none⟩ "t")])]
        "b" "hello" 20 = .ok M ∧
      faiss_search
        (load_index ⟨[], []⟩ [("b", DiskIdx.good [[1]] (some 1))] "b").1 "b"
        ((fun _ => [(1 : ℚ)]) "hello") (min 20 1) true = .ok cands ∧
      cands.length = min 20 1 ∧
      (∀ x, x ∈ M ↔ ∃ p ∈ cands, (1 : ℚ) ≤ p.1 ∧
        get_metadata
          (load_metadata ⟨[]⟩
            [("b", DiskMeta.good
              [(0, mkMetadata "b" "q1" ⟨none, none, none, none, none⟩ "t")])]
            "b").1 "b" p.2 = some x.md ∧
        x.similarity_score = p.1) ∧
      List.Sorted matchGe M ∧
      M.length ≤ min 20 1) :=
  ⟨rfl, rfl, by decide, by decide,
   C1_retrieve_threshold_semantics (fun _ => [(1 : ℚ)]) 1 ⟨[], []⟩ ⟨[]⟩
     [("b", DiskIdx.good [[1]] (some 1))]
     [("b", DiskMeta.good
       [(0, mkMetadata "b" "q1" ⟨none, none, none, none, none⟩ "t")])]
     "b" "hello" 20 [[1]]
     [(0, mkMetadata "b" "q1" ⟨none, none, none, none, none⟩ "t")]
     rfl rfl (by decide) (by decide)⟩

/-! ## C3 — characterization of the greedy deduplication -/

/-- The code's grouping loop with its explicit `used` set equals the
claim-side recursion on the not-yet-claimed remainder. -/
theorem groupsLoop_eq_specGroups (sim : Nat → Nat → ℚ) (θ : ℚ) :
    ∀ (l used : List Nat), l.Nodup →
      groupsLoop sim θ l used = specGroups sim θ (l.filter fun j => j ∉ used)
  | [], _, _ => by simp [groupsLoop, specGroups]
  | i :: rest, used, hnd => by
      have hndr : rest.Nodup := (List.nodup_cons.1 hnd).2
      have hir : i ∉ rest := (List.nodup_cons.1 hnd).1
      by_cases hi : i ∈ used
      · rw [groupsLoop, if_pos hi,
          groupsLoop_eq_specGroups sim θ rest used hndr]
        have : ((i :: rest).filter fun j => j ∉ used) =
            rest.filter fun j => j ∉ used := by
          simp [List.filter_cons, hi]
        rw [this]
      · have hcons : ((i :: rest).filter fun j => j ∉ used) =
            i :: (rest.filter fun j => j ∉ used) := by
          simp [List.filter_cons, hi]
        have hhead : (rest.filter fun j => j ∉ used ∧ θ ≤ sim i j) =
            ((rest.filter fun j => j ∉ used).filter fun j => θ ≤ sim i j) := by
          rw [List.filter_filter]
          apply List.filter_congr
          intro a _
          rw [Bool.decide_and, Bool.and_comm]
        have htail : groupsLoop sim θ rest
            (used ++ (i :: rest.filter fun j => j ∉ used ∧ θ ≤ sim i j)) =
            specGroups sim θ
              ((rest.filter fun j => j ∉ used).filter fun j => ¬ θ ≤ sim i j) := by
          rw [groupsLoop_eq_specGroups sim θ rest _ hndr, List.filter_filter]
          congr 1
          apply List.filter_congr
          intro a ha
          have hai : a ≠ i := fun h => hir (h ▸ ha)
          have hiff :
              (a ∉ used ++ (i :: rest.filter fun j => j ∉ used ∧ θ ≤ sim i j)) ↔
              (¬ θ ≤ sim i a ∧ a ∉ used) := by
            simp only [List.mem_append, List.mem_cons, List.mem_filter,
              decide_eq_true_eq]
            constructor
            · intro h
              push_neg at h
              obtain ⟨h1, _, h3⟩ := h
              exact ⟨not_le.2 (h3 ha h1), h1⟩
            · rintro ⟨h2, h1⟩
              push_neg
              exact ⟨h1, hai, fun _ _ => not_le.1 h2⟩
          rw [decide_eq_decide.2 hiff, Bool.decide_and]
        simp only [groupsLoop]
        rw [if_neg hi, hcons]
        simp only [specGroups]
        rw [htail, hhead]
  termination_by l => l.length

/-- With `keep_all_sources` set (the default) the code's emission step is the
claim-side one. -/
theorem emitGroup_eq_specEmit (qs : List Question) (g : List Nat) :
    emitGroup qs true g = specEmit qs g := by
  simp [emitGroup, specEmit]

/-- Shared computation: on a batch with no blank texts,
`deduplicate_questions` succeeds and returns exactly the claim-side groups'
representatives, in input order, over the similarity matrix of the batch's
embeddings. -/
theorem dedup_eq_spec (embed : String → Vec) (θ : ℚ) (qs : List Question)
    (hne : qs ≠ []) (hblank : ∀ q ∈ qs, blank q.text = false) :
    deduplicate_questions embed θ qs true =
      .ok ((specGroups (dedupSim (qs.map fun q => embed q.text)) θ
        (List.range qs.length)).map (specEmit qs)) := by
  have hfil : ((qs.map fun q => q.text).filter fun t => !blank t) =
      qs.map fun q => q.text := by
    apply List.filter_eq_self.2
    intro t ht
    obtain ⟨q, hq, rfl⟩ := List.mem_map.1 ht
    simp [hblank q hq]
  have hE : ((qs.map fun q => q.text).filter fun t => !blank t).map embed =
      qs.map fun q => embed q.text := by
    rw [hfil, List.map_map]
    rfl
  unfold deduplicate_questions
  rw [if_neg hne]
  by_cases h1 : qs.length = 1
  · rw [if_pos h1]
    obtain ⟨q0, rfl⟩ := List.length_eq_one.1 h1
    have h0 : List.range 1 = [0] := by simp [List.range_succ]
    simp [specGroups, specEmit, h0]
  · rw [if_neg h1]
    have hbne : (qs.map fun q => q.text) ≠ [] := by
      simpa using hne
    rw [embed_batch, if_neg hbne]
    dsimp only
    rw [hE]
    have hlen : (qs.map fun q => embed q.text).length = qs.length := by simp
    rw [hlen, if_neg (lt_irrefl _)]
    have hgr : dedupGroups (dedupSim (qs.map fun q => embed q.text)) θ
        qs.length =
        specGroups (dedupSim (qs.map fun q => embed q.text)) θ
          (List.range qs.length) := by
      rw [dedupGroups, groupsLoop_eq_specGroups _ _ _ _ (List.nodup_range _)]
      congr 1
      apply List.filter_eq_self.2
      intro a _
      simp
    rw [hgr]
    congr 1
    apply List.map_congr_left
    intro g _
    exact emitGroup_eq_specEmit qs g

/-- C3: for every non-empty batch (with embeddable texts — a blank text makes
the Python loop crash on a misaligned similarity matrix) and every threshold,
`deduplicate_questions` groups items greedily in input order — each
not-yet-claimed item claims every later unclaimed item within the threshold —
and emits one representative per group (the first-seen member), annotated
with `duplicate_count` equal to the group size and the merged source records
exactly when the group has more than one member; the result is a pure
function of input order and embeddings. -/
theorem C3_dedup_greedy_grouping (embed : String → Vec) (θ : ℚ)
    (qs : List Question) (hne : qs ≠ [])
    (hblank : ∀ q ∈ qs, blank q.text = false) :
    deduplicate_questions embed θ qs true =
      .ok ((specGroups (dedupSim (qs.map fun q => embed q.text)) θ
        (List.range qs.length)).map (specEmit qs)) :=
  dedup_eq_spec embed θ qs hne hblank

/-! ## C6 — idempotence of the deduplication pass -/

/-- Every emitted group is non-empty and its first-seen member comes from the
processed index list. -/
theorem specGroups_head_mem (sim : Nat → Nat → ℚ) (θ : ℚ) :
    ∀ l : List Nat, ∀ g ∈ specGroups sim θ l, g ≠ [] ∧ g.headD 0 ∈ l
  | [] => by simp [specGroups]
  | i :: rest => by
      intro g hg
      simp only [specGroups, List.mem_cons] at hg
      rcases hg with rfl | hg
      · simp
      · have ih := specGroups_head_mem sim θ
          (rest.filter fun j => ¬ θ ≤ sim i j) g hg
        refine ⟨ih.1, ?_⟩
        have := List.mem_filter.1 ih.2
        exact List.mem_cons_of_mem _ this.1
  termination_by l => l.length
  decreasing_by
    simp only [List.length_cons]
    exact Nat.lt_succ_of_le (List.length_filter_le _ _)

/-- Two distinct groups' representatives are never within the merge
threshold: the later representative survived the earlier one's sweep. -/
theorem specGroups_pairwise (sim : Nat → Nat → ℚ) (θ : ℚ) :
    ∀ l : List Nat, (specGroups sim θ l).Pairwise
      (fun g h => ¬ θ ≤ sim (g.headD 0) (h.headD 0))
  | [] => by simp [specGroups]
  | i :: rest => by
      simp only [specGroups]
      refine List.Pairwise.cons ?_ (specGroups_pairwise sim θ _)
      intro h hh
      have hmem := (specGroups_head_mem sim θ _ h hh).2
      have := (List.mem_filter.1 hmem).2
      simp only [decide_eq_true_eq] at this
      simpa using this
  termination_by l => l.length
  decreasing_by
    simp only [List.length_cons]
    exact Nat.lt_succ_of_le (List.length_filter_le _ _)

/-- When no two distinct processed indices are within the threshold, every
group is a singleton. -/
theorem specGroups_singletons (sim : Nat → Nat → ℚ) (θ : ℚ) :
    ∀ l : List Nat, l.Nodup →
      (∀ a ∈ l, ∀ b ∈ l, a ≠ b → ¬ θ ≤ sim a b) →
      specGroups sim θ l = l.map fun i => [i]
  | [] => by
      intro _ _
      simp [specGroups]
  | i :: rest => by
      intro hnd hdis
      have hir : i ∉ rest := (List.nodup_cons.1 hnd).1
      have hf1 : (rest.filter fun j => θ ≤ sim i j) = [] := by
        apply List.filter_eq_nil_iff.2
        intro a ha
        have hne : i ≠ a := fun hc => hir (hc ▸ ha)
        have := hdis i (by simp) a (by simp [ha]) hne
        simpa using this
      have hf2 : (rest.filter fun j => ¬ θ ≤ sim i j) = rest := by
        apply List.filter_eq_self.2
        intro a ha
        have hne : i ≠ a := fun hc => hir (hc ▸ ha)
        have := hdis i (by simp) a (by simp [ha]) hne
        simpa using this
      simp only [specGroups, hf1, hf2, List.map_cons]
      rw [specGroups_singletons sim θ rest (List.nodup_cons.1 hnd).2
        (fun a ha b hb hab => hdis a (by simp [ha]) b (by simp [hb]) hab)]
  termination_by l => l.length
  decreasing_by
    simp only [List.length_cons]
    exact Nat.lt_succ_self _

/-- The emission step never changes the representative's text. -/
theorem specEmit_text (qs : List Question) (g : List Nat) :
    (specEmit qs g).text = (qs.getD (g.headD 0) default).text := by
  unfold specEmit
  split
  · rfl
  · rfl

/-- Reading any position of a list through `getD` over `range length`
reconstructs the list. -/
theorem map_getD_range (d : Question) :
    ∀ l : List Question, (List.range l.length).map (fun i => l.getD i d) = l
  | [] => by simp
  | x :: t => by
      rw [List.length_cons, List.range_succ_eq_map, List.map_cons,
        List.map_map]
      have : ((fun i => (x :: t).getD i d) ∘ Nat.succ) = fun i => t.getD i d := by
        funext i
        rfl
      rw [this, map_getD_range d t]
      rfl

/-- Inner products are symmetric, hence so is the similarity matrix. -/
theorem dot_comm (a b : Vec) : dot a b = dot b a := by
  unfold dot
  rw [List.zipWith_comm_of_comm _ mul_comm]

/-- C6: applying `deduplicate_questions` to its own output is a no-op (for
batches whose texts embed; a blank text crashes the pass instead).  Every
later representative survived every earlier representative's sweep, so all
representative pairs sit strictly below the threshold; on the second run each
group is therefore a singleton and the emitted list is returned unchanged. -/
theorem C6_dedup_idempotent (embed : String → Vec) (θ : ℚ)
    (qs ys : List Question)
    (hblank : ∀ q ∈ qs, blank q.text = false)
    (h : deduplicate_questions embed θ qs true = .ok ys) :
    deduplicate_questions embed θ ys true = .ok ys := by
  by_cases hys0 : ys = []
  · subst hys0
    simp [deduplicate_questions]
  by_cases hys1 : ys.length = 1
  · unfold deduplicate_questions
    rw [if_neg hys0, if_pos hys1]
  by_cases hqs0 : qs = []
  · subst hqs0
    simp only [deduplicate_questions, if_true, reduceIte] at h
    exact absurd (Except.ok.inj h).symm hys0
  have hys := (h.symm.trans (dedup_eq_spec embed θ qs hqs0 hblank))
  have hysEq : ys =
      (specGroups (dedupSim (qs.map fun q => embed q.text)) θ
        (List.range qs.length)).map (specEmit qs) := Except.ok.inj hys
  set E := qs.map fun q => embed q.text with hEdef
  set G := specGroups (dedupSim E) θ (List.range qs.length) with hGdef
  have hGlen : G.length = ys.length := by rw [hysEq, List.length_map]
  -- every position of ys is the emitted representative of the group there
  have hys_at : ∀ p, (hp : p < ys.length) →
      ys.getD p default = specEmit qs (G.getD p []) := by
    intro p hp
    have hpG : p < G.length := hGlen ▸ hp
    rw [hysEq]
    rw [List.getD_eq_getElem _ _ (by rw [List.length_map]; exact hpG),
      List.getElem_map, List.getD_eq_getElem _ _ hpG]
  -- group heads are valid indices into qs
  have hrp_lt : ∀ p, (hp : p < ys.length) →
      ((G.getD p []).headD 0) < qs.length := by
    intro p hp
    have hpG : p < G.length := hGlen ▸ hp
    have hgmem : G.getD p [] ∈ G := by
      rw [List.getD_eq_getElem _ _ hpG]
      exact List.getElem_mem hpG
    exact List.mem_range.1 (specGroups_head_mem _ _ _ _ hgmem).2
  -- texts of the output are texts of the input, hence non-blank
  have htext : ∀ p, (hp : p < ys.length) →
      (ys.getD p default).text = (qs.getD ((G.getD p []).headD 0) default).text := by
    intro p hp
    rw [hys_at p hp, specEmit_text]
  have hblank' : ∀ q ∈ ys, blank q.text = false := by
    intro q hq
    obtain ⟨p, hp, rfl⟩ := List.getElem_of_mem hq
    have hp' := hp
    rw [← List.getD_eq_getElem ys default hp, htext p hp]
    have hr := hrp_lt p hp
    rw [List.getD_eq_getElem qs default hr]
    exact hblank _ (List.getElem_mem hr)
  -- the embedding row of the input at a valid index
  have hEget : ∀ r, (hr : r < qs.length) →
      E.getD r [] = embed ((qs.getD r default).text) := by
    intro r hr
    rw [hEdef]
    have hr' : r < (qs.map fun q => embed q.text).length := by
      rw [List.length_map]
      exact hr
    rw [List.getD_eq_getElem _ _ hr', List.getElem_map,
      List.getD_eq_getElem qs default hr]
  -- the embedding row of the output at a valid index
  have hE'get : ∀ p, (hp : p < ys.length) →
      (ys.map fun q => embed q.text).getD p [] =
        embed ((qs.getD ((G.getD p []).headD 0) default).text) := by
    intro p hp
    have hp' : p < (ys.map fun q => embed q.text).length := by
      rw [List.length_map]
      exact hp
    rw [List.getD_eq_getElem _ _ hp', List.getElem_map,
      ← List.getD_eq_getElem ys default hp, htext p hp]
  -- distinct output positions are never within the threshold
  have hdis : ∀ a ∈ List.range ys.length, ∀ b ∈ List.range ys.length,
      a ≠ b → ¬ θ ≤ dedupSim (ys.map fun q => embed q.text) a b := by
    intro a ha b hb hab
    have ham := List.mem_range.1 ha
    have hbm := List.mem_range.1 hb
    have htrans : dedupSim (ys.map fun q => embed q.text) a b =
        dedupSim E ((G.getD a []).headD 0) ((G.getD b []).headD 0) := by
      unfold dedupSim
      rw [hE'get a ham, hE'get b hbm, hEget _ (hrp_lt a ham),
        hEget _ (hrp_lt b hbm)]
    rw [htrans]
    have hpw := specGroups_pairwise (dedupSim E) θ (List.range qs.length)
    rw [List.pairwise_iff_get] at hpw
    have haG : a < G.length := hGlen ▸ ham
    have hbG : b < G.length := hGlen ▸ hbm
    have hga : G.get ⟨a, haG⟩ = G.getD a [] := by
      rw [List.get_eq_getElem, List.getD_eq_getElem _ _ haG]
    have hgb : G.get ⟨b, hbG⟩ = G.getD b [] := by
      rw [List.get_eq_getElem, List.getD_eq_getElem _ _ hbG]
    rcases Nat.lt_or_ge a b with hab' | hab'
    · have hR := hpw ⟨a, haG⟩ ⟨b, hbG⟩ hab'
      rw [hga, hgb] at hR
      exact hR
    · have hba : b < a := lt_of_le_of_ne hab' (Ne.symm hab)
      have hR := hpw ⟨b, hbG⟩ ⟨a, haG⟩ hba
      rw [hga, hgb] at hR
      intro hc
      apply hR
      unfold dedupSim at hc ⊢
      rw [dot_comm]
      exact hc
  have hsing : specGroups (dedupSim (ys.map fun q => embed q.text)) θ
      (List.range ys.length) = (List.range ys.length).map (fun i => [i]) :=
    specGroups_singletons _ _ _ (List.nodup_range _) hdis
  rw [dedup_eq_spec embed θ ys hys0 hblank', hsing, List.map_map]
  have hcomp : (specEmit ys ∘ fun i => [i]) = fun i => ys.getD i default := by
    funext i
    simp [specEmit]
  rw [hcomp, map_getD_range]

/-- C3 witness: two questions whose unit embeddings meet the threshold merge
into one group; the representative is the first question annotated with both
source records and `duplicate_count = 2`. -/
theorem C3_witness :
    ([⟨"q one", some "u1", none, none, none, none, none⟩,
      ⟨"q two", some "u2", none, none, none, none, none⟩] : List Question) ≠ [] ∧
    (∀ q ∈ ([⟨"q one", some "u1", none, none, none, none, none⟩,
        ⟨"q two", some "u2", none, none, none, none, none⟩] : List Question),
      blank q.text = false) ∧
    deduplicate_questions (fun _ => [(1 : ℚ)]) 1
      [⟨"q one", some "u1", none, none, none, none, none⟩,
       ⟨"q two", some "u2", none, none, none, none, none⟩] true =
      .ok ((specGroups
        (dedupSim (([⟨"q one", some "u1", none, none, none, none, none⟩,
          ⟨"q two", some "u2", none, none, none, none, none⟩] : List Question).map
            fun q => (fun _ => [(1 : ℚ)]) q.text)) 1
        (List.range ([⟨"q one", some "u1", none, none, none, none, none⟩,
          ⟨"q two", some "u2", none, none, none, none, none⟩] : List Question).length)).map
        (specEmit [⟨"q one", some "u1", none, none, none, none, none⟩,
          ⟨"q two", some "u2", none, none, none, none, none⟩])) ∧
    deduplicate_questions (fun _ => [(1 : ℚ)]) 1
      [⟨"q one", some "u1", none, none, none, none, none⟩,
       ⟨"q two", some "u2", none, none, none, none, none⟩] true =
      .ok [⟨"q one", some "u1", none, none, none,
        some [⟨some "u1", none, none, none⟩, ⟨some "u2", none, none, none⟩],
        some 2⟩] := by
  have hb1 : blank "q one" = false := by decide
  have hb2 : blank "q two" = false := by decide
  refine ⟨by decide, by decide,
    C3_dedup_greedy_grouping (fun _ => [(1 : ℚ)]) 1 _ (by decide) (by decide), ?_⟩
  norm_num [deduplicate_questions, embed_batch, hb1, hb2, dedupGroups,
    groupsLoop, dedupSim, dot, emitGroup, sourceInfoOf, List.range_succ,
    List.getD_cons_zero, List.getD_cons_succ, List.cons_ne_nil,
    List.getElem?_cons_zero, List.getElem?_cons_succ, List.getD]

/-- C6 witness: deduplicating a two-question batch merges it into one
representative, and deduplicating that output returns it unchanged. -/
theorem C6_witness :
    (∀ q ∈ ([⟨"c one", none, none, none, none, none, none⟩,
        ⟨"c two", some "u", none, none, none, none, none⟩] : List Question),
      blank q.text = false) ∧
    deduplicate_questions (fun _ => [(2 : ℚ)]) 1
      [⟨"c one", none, none, none, none, none, none⟩,
       ⟨"c two", some "u", none, none, none, none, none⟩] true =
      .ok [⟨"c one", none, none, none, none,
        some [⟨none, none, none, none⟩, ⟨some "u", none, none, none⟩],
        some 2⟩] ∧
    deduplicate_questions (fun _ => [(2 : ℚ)]) 1
      [⟨"c one", none, none, none, none,
        some [⟨none, none, none, none⟩, ⟨some "u", none, none, none⟩],
        some 2⟩] true =
      .ok [⟨"c one", none, none, none, none,
        some [⟨none, none, none, none⟩, ⟨some "u", none, none, none⟩],
        some 2⟩] := by
  have hb1 : blank "c one" = false := by decide
  have hb2 : blank "c two" = false := by decide
  have heval : deduplicate_questions (fun _ => [(2 : ℚ)]) 1
      [⟨"c one", none, none, none, none, none, none⟩,
       ⟨"c two", some "u", none, none, none, none, none⟩] true =
      .ok [⟨"c one", none, none, none, none,
        some [⟨none, none, none, none⟩, ⟨some "u", none, none, none⟩],
        some 2⟩] := by
    norm_num [deduplicate_questions, embed_batch, hb1, hb2, dedupGroups,
      groupsLoop, dedupSim, dot, emitGroup, sourceInfoOf, List.range_succ,
      List.getD_cons_zero, List.getD_cons_succ, List.cons_ne_nil,
      List.getElem?_cons_zero, List.getElem?_cons_succ, List.getD]
  exact ⟨by decide, heval,
    C6_dedup_idempotent (fun _ => [(2 : ℚ)]) 1 _ _ (by decide) heval⟩

end CQM
